import Mathlib

/-!
Verification of the pdf2md/transform2tidy pipeline backend.

The Python sources under `backend/app` are shallowly embedded here.
Strings are modelled as `List Char` (`Str`), so that Python string
primitives (`strip`, `split`, `replace`, substring membership) can be
given faithful, executable Lean counterparts with provable equations.
-/

namespace PdfTidy

set_option maxRecDepth 100000

/-- Python strings modelled as lists of characters. -/
abbrev Str := List Char

/-- Coerce a Lean string literal to the `Str` model. -/
def str (s : String) : Str := s.toList

/-- The ASCII whitespace characters removed by Python `str.strip()`. -/
def isSpaceChar (c : Char) : Bool :=
  c = ' ' || c = '\t' || c = '\n' || c = '\r' || c = '\x0b' || c = '\x0c'

/-- Python `str.strip()`: remove leading and trailing whitespace. -/
def pyStrip (s : Str) : Str := List.rdropWhile isSpaceChar (s.dropWhile isSpaceChar)

/-- Python `str.split(sep)` for a single-character separator: split at every
occurrence, keeping empty pieces. -/
def pySplit (sep : Char) : Str → List Str
  | [] => [[]]
  | c :: rest =>
    if c = sep then [] :: pySplit sep rest
    else
      match pySplit sep rest with
      | [] => [[c]]
      | piece :: pieces => (c :: piece) :: pieces

/-- Python `sep.join(pieces)`. -/
def joinSep (sep : Str) : List Str → Str
  | [] => []
  | [x] => x
  | x :: y :: rest => x ++ sep ++ joinSep sep (y :: rest)

/-- Python substring test `needle in hay`. -/
def containsSub (hay needle : Str) : Bool :=
  needle.isPrefixOf hay ||
    match hay with
    | [] => false
    | _ :: t => containsSub t needle

/-- Fuel-driven worker for `pyReplace`; the fuel is the length of the
subject string, which bounds the number of recursion steps because each
step consumes at least one character of the subject. -/
def pyReplaceFuel (pat rep : Str) : Nat → Str → Str
  | 0, s => s
  | _ + 1, [] => []
  | fuel + 1, c :: rest =>
    if pat.isPrefixOf (c :: rest) then
      rep ++ pyReplaceFuel pat rep fuel ((c :: rest).drop pat.length)
    else c :: pyReplaceFuel pat rep fuel rest

/-- Python `s.replace(pat, rep)` for a nonempty pattern: replace all
non-overlapping occurrences left to right.  All call sites in the embedded
code pass a nonempty pattern of the form `<KEY>`; for an empty pattern the
subject is returned unchanged. -/
def pyReplace (s pat rep : Str) : Str :=
  if pat = [] then s else pyReplaceFuel pat rep s.length s

/-! ### Basic lemmas about the string model -/

theorem pySplit_ne_nil (sep : Char) (s : Str) : pySplit sep s ≠ [] := by
  induction s with
  | nil => simp [pySplit]
  | cons c rest ih =>
    simp only [pySplit]
    split
    · simp
    · cases h : pySplit sep rest with
      | nil => exact absurd h ih
      | cons p ps => simp

theorem not_mem_of_mem_pySplit {sep : Char} {s piece : Str}
    (hp : piece ∈ pySplit sep s) : sep ∉ piece := by
  induction s generalizing piece with
  | nil => simp [pySplit] at hp; simp [hp]
  | cons c rest ih =>
    simp only [pySplit] at hp
    split at hp
    · rcases List.mem_cons.mp hp with h | h
      · simp [h]
      · exact ih h
    · rename_i hcs
      cases h : pySplit sep rest with
      | nil => exact absurd h (pySplit_ne_nil sep rest)
      | cons p ps =>
        rw [h] at hp
        rcases List.mem_cons.mp hp with h2 | h2
        · subst h2
          intro hmem
          rcases List.mem_cons.mp hmem with h3 | h3
          · exact hcs h3.symm
          · exact ih (h ▸ List.mem_cons_self p ps) h3
        · exact ih (h ▸ List.mem_cons_of_mem p h2)

theorem mem_of_mem_pySplit {sep : Char} {s piece : Str} {x : Char}
    (hp : piece ∈ pySplit sep s) (hx : x ∈ piece) : x ∈ s := by
  induction s generalizing piece with
  | nil =>
    simp [pySplit] at hp
    subst hp
    simp at hx
  | cons c rest ih =>
    simp only [pySplit] at hp
    split at hp
    · rcases List.mem_cons.mp hp with h | h
      · subst h; simp at hx
      · exact List.mem_cons_of_mem c (ih h hx)
    · cases h : pySplit sep rest with
      | nil => exact absurd h (pySplit_ne_nil sep rest)
      | cons p ps =>
        rw [h] at hp
        rcases List.mem_cons.mp hp with h2 | h2
        · subst h2
          rcases List.mem_cons.mp hx with h3 | h3
          · simp [h3]
          · exact List.mem_cons_of_mem c (ih (h ▸ List.mem_cons_self p ps) h3)
        · exact List.mem_cons_of_mem c (ih (h ▸ List.mem_cons_of_mem p h2) hx)

theorem pySplit_length (sep : Char) (s : Str) :
    (pySplit sep s).length = s.count sep + 1 := by
  induction s with
  | nil => simp [pySplit]
  | cons c rest ih =>
    simp only [pySplit]
    split
    · rename_i hc
      simp [List.count_cons, hc, ih]
    · rename_i hc
      cases h : pySplit sep rest with
      | nil => exact absurd h (pySplit_ne_nil sep rest)
      | cons p ps =>
        have hlen : (p :: ps).length = rest.count sep + 1 := by rw [← h]; exact ih
        simp only [List.length_cons] at hlen
        have hcc : (c :: rest).count sep = rest.count sep := by
          simp [List.count_cons, hc]
        simp only [List.length_cons, hcc]
        omega

theorem pySplit_of_not_mem {sep : Char} {s : Str} (h : sep ∉ s) :
    pySplit sep s = [s] := by
  induction s with
  | nil => rfl
  | cons c rest ih =>
    simp only [List.mem_cons, not_or] at h
    simp only [pySplit]
    rw [if_neg (fun hc => h.1 hc.symm), ih h.2]

theorem pySplit_append_sep {sep : Char} {l : Str} (rest : Str) (h : sep ∉ l) :
    pySplit sep (l ++ sep :: rest) = l :: pySplit sep rest := by
  induction l with
  | nil => simp [pySplit]
  | cons c t ih =>
    simp only [List.mem_cons, not_or] at h
    have hrec := ih h.2
    simp only [List.cons_append, pySplit]
    rw [if_neg (fun hc => h.1 hc.symm)]
    simp only [List.append_eq]
    rw [hrec]

theorem pySplit_joinSep {sep : Char} {ls : List Str} (hne : ls ≠ [])
    (h : ∀ l ∈ ls, sep ∉ l) :
    pySplit sep (joinSep [sep] ls) = ls := by
  induction ls with
  | nil => exact absurd rfl hne
  | cons l rest ih =>
    cases rest with
    | nil =>
      simp only [joinSep]
      exact pySplit_of_not_mem (h l (List.mem_cons_self l []))
    | cons l2 rest2 =>
      have hjoin : joinSep [sep] (l :: l2 :: rest2)
          = l ++ sep :: joinSep [sep] (l2 :: rest2) := by
        simp [joinSep]
      rw [hjoin, pySplit_append_sep _ (h l (List.mem_cons_self _ _)),
        ih (by simp) (fun x hx => h x (List.mem_cons_of_mem l hx))]

theorem pyStrip_sublist (s : Str) : List.Sublist (pyStrip s) s :=
  ((List.rdropWhile_prefix isSpaceChar _).sublist).trans
    ((List.dropWhile_suffix isSpaceChar).sublist)

theorem mem_pyStrip {s : Str} {x : Char} (hx : x ∈ pyStrip s) : x ∈ s :=
  (pyStrip_sublist s).subset hx

theorem isPrefix_cons_decomp {c : Char} {t l : Str} (h : (c :: t) <+: l) :
    ∃ r, l = c :: r := by
  obtain ⟨u, hu⟩ := h
  exact ⟨t ++ u, by rw [← hu]; rfl⟩

theorem pyStrip_idem (s : Str) : pyStrip (pyStrip s) = pyStrip s := by
  have hu : List.dropWhile isSpaceChar (s.dropWhile isSpaceChar)
      = s.dropWhile isSpaceChar := List.dropWhile_idempotent _ _
  have hdrop : List.dropWhile isSpaceChar (pyStrip s) = pyStrip s := by
    cases hv : pyStrip s with
    | nil => simp
    | cons c t =>
      have hpre : pyStrip s <+: List.dropWhile isSpaceChar s :=
        List.rdropWhile_prefix isSpaceChar _
      rw [hv] at hpre
      obtain ⟨r, hr⟩ := isPrefix_cons_decomp hpre
      have hc : isSpaceChar c = false := by
        by_contra hcc
        have hcc2 : isSpaceChar c = true := by
          cases h2 : isSpaceChar c
          · exact absurd h2 hcc
          · rfl
        have := hu
        rw [hr, List.dropWhile_cons_of_pos hcc2] at this
        have hlen := congrArg List.length this
        have hle : (List.dropWhile isSpaceChar r).length ≤ r.length :=
          (List.dropWhile_suffix isSpaceChar :
            List.dropWhile isSpaceChar r <:+ r).sublist.length_le
        simp at hlen
        omega
      exact List.dropWhile_cons_of_neg (by simp [hc])
  show List.rdropWhile isSpaceChar (List.dropWhile isSpaceChar (pyStrip s)) = pyStrip s
  rw [hdrop]
  exact List.rdropWhile_idempotent _ _

theorem pyStrip_eq_self_of_ends {a b : Char} (m : Str)
    (ha : isSpaceChar a = false) (hb : isSpaceChar b = false) :
    pyStrip (a :: m ++ [b]) = a :: m ++ [b] := by
  show List.rdropWhile isSpaceChar (List.dropWhile isSpaceChar (a :: (m ++ [b])))
      = a :: m ++ [b]
  rw [List.dropWhile_cons_of_neg (by simp [ha])]
  have : a :: (m ++ [b]) = (a :: m) ++ [b] := by simp
  rw [this, List.rdropWhile_concat_neg _ _ _ (by simp [hb])]

theorem pyStrip_cons_space {c : Char} (s : Str) (hc : isSpaceChar c = true) :
    pyStrip (c :: s) = pyStrip s := by
  show List.rdropWhile isSpaceChar (List.dropWhile isSpaceChar (c :: s)) = _
  rw [List.dropWhile_cons_of_pos hc]
  rfl

theorem pyStrip_concat_space {c : Char} (s : Str) (hc : isSpaceChar c = true) :
    pyStrip (s ++ [c]) = pyStrip s := by
  show List.rdropWhile isSpaceChar (List.dropWhile isSpaceChar (s ++ [c])) = _
  rw [List.dropWhile_append]
  cases he : (List.dropWhile isSpaceChar s).isEmpty
  · simp only [Bool.false_eq_true, if_false]
    exact List.rdropWhile_concat_pos _ _ _ hc
  · simp only [if_true]
    rw [List.dropWhile_cons_of_pos hc]
    simp only [List.dropWhile_nil, List.rdropWhile_nil]
    have : List.dropWhile isSpaceChar s = [] := by
      cases h2 : List.dropWhile isSpaceChar s
      · rfl
      · rw [h2] at he; simp at he
    show _ = List.rdropWhile isSpaceChar (List.dropWhile isSpaceChar s)
    rw [this]
    simp

theorem pyStrip_pad (c : Str) : pyStrip (' ' :: (c ++ [' '])) = pyStrip c := by
  rw [pyStrip_cons_space _ (by simp [isSpaceChar]),
    pyStrip_concat_space _ (by simp [isSpaceChar])]

theorem mem_joinSep {sep : Str} {ls : List Str} {x : Char}
    (hx : x ∈ joinSep sep ls) : x ∈ sep ∨ ∃ l ∈ ls, x ∈ l := by
  induction ls with
  | nil => simp [joinSep] at hx
  | cons l rest ih =>
    cases rest with
    | nil =>
      simp only [joinSep] at hx
      exact Or.inr ⟨l, List.mem_cons_self l [], hx⟩
    | cons l2 rest2 =>
      simp only [joinSep, List.append_assoc, List.mem_append] at hx
      rcases hx with h | h | h
      · exact Or.inr ⟨l, List.mem_cons_self _ _, h⟩
      · exact Or.inl h
      · rcases ih h with h2 | ⟨m, hm, hxm⟩
        · exact Or.inl h2
        · exact Or.inr ⟨m, List.mem_cons_of_mem l hm, hxm⟩

/-!
### Table extractor

Embedding of `backend/app/services/filter2csv/table_extractor.py`:
`extract_tables_as_dataframes` and `_parse_markdown_table`.
A pandas `DataFrame` of string cells is modelled by `Table`.
-/

/-- A rectangular table: ordered column headers and ordered rows of cells.
Models the pandas DataFrame constructed by `_parse_markdown_table`. -/
structure Table where
  headers : List Str
  rows : List (List Str)
deriving DecidableEq

/-- The cell list of one table line: Python `[c.strip() for c in
line.split("|")[1:-1]]`. -/
def cellsOf (line : Str) : List Str :=
  (((pySplit '|' line).drop 1).dropLast).map pyStrip

/-- Whether a line is a table-row candidate: Python
`re.match(r"^\|(.+)\|$", line.strip())`.  The stripped line must start and
end with a pipe with at least one character between them, and `.` does not
match a newline. -/
def isCandidate (line : Str) : Bool :=
  let t := pyStrip line
  decide (3 ≤ t.length) && t.headD ' ' = '|' && t.getLastD ' ' = '|'
    && ((t.drop 1).dropLast).all (fun c => c ≠ '\n')

/-- The data-row loop of `_parse_markdown_table`: iterate `lines[2:]`,
skip blank lines, keep the cell lists whose arity matches the header. -/
def parseDataRows (headerLen : Nat) : List Str → List (List Str)
  | [] => []
  | line :: rest =>
    if (pyStrip line).isEmpty then parseDataRows headerLen rest
    else
      let cells := cellsOf line
      if cells.length = headerLen then cells :: parseDataRows headerLen rest
      else parseDataRows headerLen rest

/-- Embedding of `_parse_markdown_table`: fewer than two lines yield no
table; the first line is the header, the second line is skipped
unconditionally as the separator, the remaining lines are data candidates;
a table with no surviving data rows is `none`. -/
def parseMarkdownTable : List Str → Option Table
  | headerLine :: _ :: rest =>
    let headers := cellsOf headerLine
    let dataRows := parseDataRows headers.length rest
    if dataRows.isEmpty then none else some ⟨headers, dataRows⟩
  | _ => none

/-- The flush step of `extract_tables_as_dataframes`: parse the
accumulated block and keep the table when it is non-`None` and nonempty. -/
def flushTable (cur : List Str) : List Table :=
  if cur.isEmpty then []
  else
    match parseMarkdownTable cur with
    | some df => if 0 < df.rows.length then [df] else []
    | none => []

/-- The loop state of `extract_tables_as_dataframes`: collected tables,
the current block of candidate lines, and the `in_table` flag. -/
structure ScanState where
  tables : List Table
  current : List Str
  inTable : Bool

/-- One iteration of the line scan in `extract_tables_as_dataframes`:
a candidate line is appended to the current block; a non-blank
non-candidate line while inside a table flushes the block; anything else
leaves the state unchanged (a blank line does not end a block). -/
def scanLine (st : ScanState) (line : Str) : ScanState :=
  if isCandidate line then ⟨st.tables, st.current ++ [line], true⟩
  else if st.inTable && !(pyStrip line).isEmpty then
    ⟨st.tables ++ flushTable st.current, [], false⟩
  else st

/-- Extraction from a pre-split line list, including the final flush of a
trailing block. -/
def extractLines (lines : List Str) : List Table :=
  let final := lines.foldl scanLine ⟨[], [], false⟩
  final.tables ++ flushTable final.current

/-- Embedding of `extract_tables_as_dataframes`: split the document text
on newlines and scan. -/
def extractTables (content : Str) : List Table :=
  extractLines (pySplit '\n' content)

example : extractTables (str "| a | b |\n| --- | --- |\n| 1 | 2 |\nprose") =
    [⟨[str "a", str "b"], [[str "1", str "2"]]⟩] := by decide

example : extractTables (str "| a | b |\n| --- | --- |\n| 1 | 2 | 3 |") = [] := by
  decide

example : extractTables (str "| a |\n| - |") = [] := by decide

/-!
### Lemmas on the extractor scan
-/

theorem isCandidate_not_blank {l : Str} (h : isCandidate l = true) :
    (pyStrip l).isEmpty = false := by
  simp only [isCandidate, Bool.and_eq_true, decide_eq_true_eq] at h
  cases hp : pyStrip l with
  | nil => rw [hp] at h; simp at h
  | cons c t => rfl

theorem foldl_scanLine_candidates (ls : List Str)
    (h : ∀ l ∈ ls, isCandidate l = true) :
    ∀ (ts : List Table) (cur : List Str) (b : Bool),
      ls.foldl scanLine ⟨ts, cur, b⟩ = ⟨ts, cur ++ ls, if ls.isEmpty then b else true⟩ := by
  induction ls with
  | nil => intro ts cur b; simp
  | cons l rest ih =>
    intro ts cur b
    have hl : isCandidate l = true := h l (List.mem_cons_self _ _)
    simp only [List.foldl_cons, scanLine, hl, if_true]
    rw [ih (fun x hx => h x (List.mem_cons_of_mem _ hx))]
    simp

theorem parseDataRows_eq_filter (n : Nat) (ds : List Str)
    (h : ∀ l ∈ ds, isCandidate l = true) :
    parseDataRows n ds = (ds.map cellsOf).filter (fun r => r.length = n) := by
  induction ds with
  | nil => rfl
  | cons l rest ih =>
    have hl := isCandidate_not_blank (h l (List.mem_cons_self _ _))
    have ihr := ih (fun x hx => h x (List.mem_cons_of_mem _ hx))
    simp only [parseDataRows, hl, Bool.false_eq_true, if_false, List.map_cons,
      List.filter_cons]
    by_cases hc : (cellsOf l).length = n
    · simp [hc, ihr]
    · simp [hc, ihr]

/-- C3: for every well-formed pipe-delimited table text (a candidate
header line, a candidate separator line, then candidate data lines),
`extract_tables_as_dataframes` recovers exactly as many rows as there are
non-separator data lines, every extracted row has exactly as many cells as
the header, and any candidate line whose cell count differs from the
header cell count is silently dropped rather than raising an error. -/
theorem extract_wellformed_table (content h s : Str) (ds : List Str)
    (hsplit : pySplit '\n' content = h :: s :: ds)
    (hh : isCandidate h = true) (hs : isCandidate s = true)
    (hds : ∀ l ∈ ds, isCandidate l = true) :
    (extractTables content =
      if ((ds.map cellsOf).filter (fun r => r.length = (cellsOf h).length)).isEmpty
      then []
      else [⟨cellsOf h,
        (ds.map cellsOf).filter (fun r => r.length = (cellsOf h).length)⟩])
    ∧ ((∀ l ∈ ds, (cellsOf l).length = (cellsOf h).length) → ds ≠ [] →
        extractTables content = [⟨cellsOf h, ds.map cellsOf⟩]
        ∧ (ds.map cellsOf).length = ds.length
        ∧ ∀ r ∈ ds.map cellsOf, r.length = (cellsOf h).length) := by
  have hall : ∀ l ∈ h :: s :: ds, isCandidate l = true := by
    intro l hl
    rcases List.mem_cons.mp hl with rfl | hl2
    · exact hh
    rcases List.mem_cons.mp hl2 with rfl | hl3
    · exact hs
    · exact hds l hl3
  have hfold := foldl_scanLine_candidates _ hall [] [] false
  have hextract : extractTables content = flushTable (h :: s :: ds) := by
    show extractLines (pySplit '\n' content) = _
    rw [hsplit]
    show (((h :: s :: ds).foldl scanLine ⟨[], [], false⟩).tables
      ++ flushTable (((h :: s :: ds).foldl scanLine ⟨[], [], false⟩).current)) = _
    rw [hfold]
    simp
  have hmain : extractTables content =
      if ((ds.map cellsOf).filter (fun r => r.length = (cellsOf h).length)).isEmpty
      then []
      else [⟨cellsOf h,
        (ds.map cellsOf).filter (fun r => r.length = (cellsOf h).length)⟩] := by
    rw [hextract]
    show (if (h :: s :: ds).isEmpty then []
      else match parseMarkdownTable (h :: s :: ds) with
        | some df => if 0 < df.rows.length then [df] else []
        | none => []) = _
    simp only [List.isEmpty_cons, Bool.false_eq_true, if_false]
    show (match
        (if (parseDataRows (cellsOf h).length ds).isEmpty then none
          else some ⟨cellsOf h, parseDataRows (cellsOf h).length ds⟩ : Option Table) with
      | some df => if 0 < df.rows.length then [df] else []
      | none => []) = _
    rw [parseDataRows_eq_filter _ _ hds]
    cases he : ((ds.map cellsOf).filter (fun r => r.length = (cellsOf h).length)).isEmpty
    · simp only [Bool.false_eq_true, if_false]
      have hpos : 0 < ((ds.map cellsOf).filter
          (fun r => r.length = (cellsOf h).length)).length := by
        cases hl : (ds.map cellsOf).filter (fun r => r.length = (cellsOf h).length)
        · rw [hl] at he; simp at he
        · simp
      simp [hpos]
    · simp
  refine ⟨hmain, fun harity hne => ?_⟩
  have hfilter : (ds.map cellsOf).filter (fun r => r.length = (cellsOf h).length)
      = ds.map cellsOf := by
    rw [List.filter_eq_self]
    intro a ha
    obtain ⟨l, hl, rfl⟩ := List.mem_map.mp ha
    simp [harity l hl]
  have hne2 : (ds.map cellsOf).isEmpty = false := by
    cases ds
    · exact absurd rfl hne
    · rfl
  refine ⟨?_, List.length_map _ _, ?_⟩
  · rw [hmain, hfilter, hne2]
    simp
  · intro r hr
    obtain ⟨l, hl, rfl⟩ := List.mem_map.mp hr
    exact harity l hl

/-- Witness for `extract_wellformed_table` at a concrete three-line table
text with two data-arity-matching rows. -/
theorem extract_wellformed_table_witness :
    extractTables (str "| a | b |\n| --- |\n| 1 | 2 |")
      = [⟨[str "a", str "b"], [[str "1", str "2"]]⟩] := by
  have h := (extract_wellformed_table (str "| a | b |\n| --- |\n| 1 | 2 |")
      (str "| a | b |") (str "| --- |") [str "| 1 | 2 |"]
      (by decide) (by decide) (by decide) (by decide)).2 (by decide) (by decide)
  exact h.1.trans (by decide)

/-- C9: `_parse_markdown_table` unconditionally skips the second line of
every candidate block, whether or not it is a separator (the parse result
is invariant under replacing the second line); a block of a header plus
exactly one data row and no separator yields no table (the lone data row
is consumed as the separator and the zero-row table is discarded); and a
block of fewer than two lines yields no table. -/
theorem parse_skips_second_line :
    (∀ lines : List Str, lines.length < 2 → parseMarkdownTable lines = none)
    ∧ (∀ h s s2 rest, parseMarkdownTable (h :: s :: rest)
        = parseMarkdownTable (h :: s2 :: rest))
    ∧ (∀ h d, parseMarkdownTable [h, d] = none) := by
  refine ⟨fun lines hl => ?_, fun h s s2 rest => rfl, fun h d => rfl⟩
  match lines with
  | [] => rfl
  | [x] => rfl
  | x :: y :: rest => simp at hl; omega

/-- Witness for `parse_skips_second_line` at concrete blocks: a single
line, and a header plus one data row without separator. -/
theorem parse_skips_second_line_witness :
    parseMarkdownTable [str "| a |"] = none
    ∧ parseMarkdownTable [str "| a |", str "| 1 |"] = none
    ∧ parseMarkdownTable [str "| h |", str "| not a separator |", str "| 1 |"]
        = parseMarkdownTable [str "| h |", str "| --- |", str "| 1 |"] :=
  ⟨parse_skips_second_line.1 [str "| a |"] (by decide),
   parse_skips_second_line.2.2 (str "| a |") (str "| 1 |"),
   parse_skips_second_line.2.1 (str "| h |") (str "| not a separator |")
     (str "| --- |") [str "| 1 |"]⟩

/-!
### Invariants of extracted tables

Every table produced by `extract_tables_as_dataframes` has trimmed,
pipe-free, newline-free cells, a nonempty header, at least one row, and
rectangular shape.  These invariants drive the round-trip property C4.
-/

/-- A cell as produced by the extractor: already trimmed and free of the
pipe delimiter and of newlines. -/
def cellOk (c : Str) : Prop := pyStrip c = c ∧ '|' ∉ c ∧ '\n' ∉ c

/-- Structural invariant of every extracted table. -/
def tableOk (t : Table) : Prop :=
  0 < t.headers.length ∧ t.rows ≠ []
    ∧ (∀ r ∈ t.rows, r.length = t.headers.length)
    ∧ (∀ c ∈ t.headers, cellOk c)
    ∧ (∀ r ∈ t.rows, ∀ c ∈ r, cellOk c)

theorem cellsOf_cellOk {line : Str} (hn : '\n' ∉ line) :
    ∀ c ∈ cellsOf line, cellOk c := by
  intro c hc
  obtain ⟨piece, hpiece, rfl⟩ := List.mem_map.mp hc
  have hpiece2 : piece ∈ pySplit '|' line :=
    List.drop_subset 1 _ (List.dropLast_subset _ hpiece)
  refine ⟨pyStrip_idem piece, fun hmem => ?_, fun hmem => ?_⟩
  · exact not_mem_of_mem_pySplit hpiece2 (mem_pyStrip hmem)
  · exact hn (mem_of_mem_pySplit hpiece2 (mem_pyStrip hmem))

theorem isCandidate_decomp {line : Str} (h : isCandidate line = true) :
    ∃ mid, pyStrip line = '|' :: mid ++ ['|'] := by
  simp only [isCandidate, Bool.and_eq_true, decide_eq_true_eq] at h
  obtain ⟨⟨⟨hlen, hhead⟩, hlast⟩, -⟩ := h
  cases ht : pyStrip line with
  | nil => rw [ht] at hlen; simp at hlen
  | cons a u =>
    rw [ht] at hlen hhead hlast
    rcases List.eq_nil_or_concat u with rfl | ⟨w, b, hwb⟩
    · simp at hlen
    · rw [List.concat_eq_append] at hwb
      subst hwb
      refine ⟨w, ?_⟩
      have ha : a = '|' := by simpa using hhead
      have hb : b = '|' := by
        rw [← List.cons_append, List.getLastD_concat] at hlast
        exact hlast
      rw [ha, hb]
      simp

theorem cellsOf_length_pos {line : Str} (h : isCandidate line = true) :
    0 < (cellsOf line).length := by
  obtain ⟨mid, hmid⟩ := isCandidate_decomp h
  have hcount2 : 2 ≤ (pyStrip line).count '|' := by
    rw [hmid]
    have : ('|' :: mid ++ ['|']).count '|'
        = (mid ++ ['|']).count '|' + 1 := by
      simp [List.count_cons]
    rw [this, List.count_append]
    simp [List.count_cons]
  have hcount : 2 ≤ line.count '|' :=
    le_trans hcount2 ((pyStrip_sublist line).count_le '|')
  have hsplitlen : (pySplit '|' line).length = line.count '|' + 1 :=
    pySplit_length '|' line
  simp only [cellsOf, List.length_map, List.length_dropLast, List.length_drop]
  omega

theorem mem_parseDataRows {n : Nat} {ls : List Str} {r : List Str}
    (hr : r ∈ parseDataRows n ls) :
    r.length = n ∧ ∃ l ∈ ls, r = cellsOf l := by
  induction ls with
  | nil => simp [parseDataRows] at hr
  | cons l rest ih =>
    simp only [parseDataRows] at hr
    split at hr
    · obtain ⟨h1, l2, h2, h3⟩ := ih hr
      exact ⟨h1, l2, List.mem_cons_of_mem _ h2, h3⟩
    · split at hr
      · rcases List.mem_cons.mp hr with rfl | hr2
        · rename_i hlen
          exact ⟨hlen, l, List.mem_cons_self _ _, rfl⟩
        · obtain ⟨h1, l2, h2, h3⟩ := ih hr2
          exact ⟨h1, l2, List.mem_cons_of_mem _ h2, h3⟩
      · obtain ⟨h1, l2, h2, h3⟩ := ih hr
        exact ⟨h1, l2, List.mem_cons_of_mem _ h2, h3⟩

theorem tableOk_of_flush {cur : List Str}
    (hcand : ∀ l ∈ cur, isCandidate l = true)
    (hn : ∀ l ∈ cur, '\n' ∉ l) :
    ∀ t ∈ flushTable cur, tableOk t := by
  intro t ht
  match cur with
  | [] => simp [flushTable] at ht
  | [x] => simp [flushTable, parseMarkdownTable] at ht
  | h :: s :: rest =>
    simp only [flushTable, List.isEmpty_cons, Bool.false_eq_true, if_false,
      parseMarkdownTable] at ht
    cases he : (parseDataRows (cellsOf h).length rest).isEmpty
    · have hpos : 0 < (parseDataRows (cellsOf h).length rest).length := by
        cases hl : parseDataRows (cellsOf h).length rest
        · rw [hl] at he; simp at he
        · simp
      simp only [he, Bool.false_eq_true, if_false, hpos, if_true] at ht
      rcases List.mem_cons.mp ht with rfl | h2
      · refine ⟨cellsOf_length_pos (hcand h (List.mem_cons_self _ _)), ?_, ?_, ?_, ?_⟩
        · intro he2
          have he3 : parseDataRows (cellsOf h).length rest = [] := he2
          rw [he3] at hpos
          simp at hpos
        · intro r hr
          exact (mem_parseDataRows hr).1
        · exact cellsOf_cellOk (hn h (List.mem_cons_self _ _))
        · intro r hr c hc
          obtain ⟨-, l, hl, rfl⟩ := mem_parseDataRows hr
          exact cellsOf_cellOk
            (hn l (List.mem_cons_of_mem _ (List.mem_cons_of_mem _ hl))) c hc
      · simp at h2
    · simp only [he, if_true] at ht
      simp at ht

/-- The scan-state invariant maintained by `extract_tables_as_dataframes`:
all collected tables satisfy `tableOk` and the current block holds only
newline-free candidate lines. -/
def StateOk (st : ScanState) : Prop :=
  (∀ t ∈ st.tables, tableOk t)
    ∧ ∀ l ∈ st.current, isCandidate l = true ∧ '\n' ∉ l

theorem scanLine_preserves {st : ScanState} {line : Str}
    (hst : StateOk st) (hn : '\n' ∉ line) : StateOk (scanLine st line) := by
  unfold scanLine
  split
  · rename_i hc
    refine ⟨hst.1, fun l hl => ?_⟩
    rcases List.mem_append.mp hl with h1 | h1
    · exact hst.2 l h1
    · rcases List.mem_cons.mp h1 with rfl | h2
      · exact ⟨hc, hn⟩
      · simp at h2
  · split
    · refine ⟨fun t ht => ?_, by simp⟩
      rcases List.mem_append.mp ht with h1 | h1
      · exact hst.1 t h1
      · exact tableOk_of_flush (fun l hl => (hst.2 l hl).1)
          (fun l hl => (hst.2 l hl).2) t h1
    · exact hst

theorem foldl_scanLine_preserves (lines : List Str)
    (hn : ∀ l ∈ lines, '\n' ∉ l) :
    ∀ st : ScanState, StateOk st → StateOk (lines.foldl scanLine st) := by
  induction lines with
  | nil => intro st hst; exact hst
  | cons l rest ih =>
    intro st hst
    exact ih (fun x hx => hn x (List.mem_cons_of_mem _ hx)) _
      (scanLine_preserves hst (hn l (List.mem_cons_self _ _)))

theorem extract_tableOk {content : Str} {t : Table}
    (ht : t ∈ extractTables content) : tableOk t := by
  have hn : ∀ l ∈ pySplit '\n' content, '\n' ∉ l := by
    intro l hl
    exact not_mem_of_mem_pySplit hl
  have hst : StateOk ((pySplit '\n' content).foldl scanLine ⟨[], [], false⟩) :=
    foldl_scanLine_preserves _ hn _ ⟨by simp, by simp⟩
  have ht2 : t ∈ ((pySplit '\n' content).foldl scanLine ⟨[], [], false⟩).tables
      ++ flushTable ((pySplit '\n' content).foldl scanLine ⟨[], [], false⟩).current := ht
  rcases List.mem_append.mp ht2 with h1 | h1
  · exact hst.1 t h1
  · exact tableOk_of_flush (fun l hl => (hst.2 l hl).1)
      (fun l hl => (hst.2 l hl).2) t h1

/-!
### Round-trip serialization

The repository persists extracted tables only as CSV; the spec round-trip
property presupposes re-serializing a table back to pipe-delimited text.
The serializer below is therefore modelled from the spec.
-/

/-- A serialized cell, padded with one space on each side. -/
def padCell (c : Str) : Str := ' ' :: (c ++ [' '])

/-- Modelled from the spec: serialize one table row (header or data) as a
pipe-delimited line.  The repository has no markdown serializer; this is
the re-serialization step of the spec round-trip property. -/
def serializeRow (cells : List Str) : Str :=
  str "| " ++ joinSep (str " | ") cells ++ str " |"

/-- Modelled from the spec: serialize a table as pipe-delimited text with
a header row, a header/body separator row, and the data rows. -/
def serializeTable (t : Table) : Str :=
  joinSep (str "\n")
    ([serializeRow t.headers, serializeRow (t.headers.map (fun _ => str "---"))]
      ++ t.rows.map serializeRow)

theorem joinSep_cons_cons (sep x y : Str) (rest : List Str) :
    joinSep sep (x :: y :: rest) = x ++ sep ++ joinSep sep (y :: rest) := rfl

theorem joinSep_cons_of_ne (sep x : Str) (xs : List Str) (h : xs ≠ []) :
    joinSep sep (x :: xs) = x ++ sep ++ joinSep sep xs := by
  cases xs with
  | nil => exact absurd rfl h
  | cons y ys => rfl

theorem serializeRow_decomp (cs : List Str) :
    serializeRow cs
      = '|' :: (' ' :: (joinSep (str " | ") cs ++ [' '])) ++ ['|'] := by
  show ['|', ' '] ++ joinSep (str " | ") cs ++ [' ', '|'] = _
  simp

theorem pyStrip_serializeRow (cs : List Str) :
    pyStrip (serializeRow cs) = serializeRow cs := by
  rw [serializeRow_decomp]
  exact pyStrip_eq_self_of_ends _ (by decide) (by decide)

theorem not_newline_mem_serializeRow {cs : List Str}
    (h : ∀ c ∈ cs, '\n' ∉ c) : '\n' ∉ serializeRow cs := by
  intro hmem
  simp only [serializeRow, List.append_assoc, List.mem_append] at hmem
  rcases hmem with h1 | h1 | h1
  · revert h1; decide
  · rcases mem_joinSep h1 with h2 | ⟨l, hl, h2⟩
    · revert h2; decide
    · exact h l hl h2
  · revert h1; decide

theorem isCandidate_serializeRow {cs : List Str}
    (h : ∀ c ∈ cs, '\n' ∉ c) : isCandidate (serializeRow cs) = true := by
  simp only [isCandidate, pyStrip_serializeRow, Bool.and_eq_true, decide_eq_true_eq]
  rw [serializeRow_decomp]
  refine ⟨⟨⟨?_, ?_⟩, ?_⟩, ?_⟩
  · simp
  · simp
  · rw [List.getLastD_concat]
  · rw [List.all_eq_true]
    intro c hc
    have hc2 : c ∈ ((' ' :: (joinSep (str " | ") cs ++ [' '])) ++ ['|']).dropLast := by
      rw [List.cons_append] at hc
      have : ('|' :: ((' ' :: (joinSep (str " | ") cs ++ [' '])) ++ ['|'])).drop 1
          = (' ' :: (joinSep (str " | ") cs ++ [' '])) ++ ['|'] := rfl
      rw [this] at hc
      exact hc
    rw [show (' ' :: (joinSep (str " | ") cs ++ [' '])) ++ ['|']
        = (' ' :: joinSep (str " | ") cs ++ [' ']) ++ ['|'] from by simp,
      List.dropLast_concat] at hc2
    have hne : c ≠ '\n' := by
      rcases List.mem_cons.mp hc2 with rfl | h2
      · decide
      · rcases List.mem_append.mp h2 with h3 | h3
        · rcases mem_joinSep h3 with h4 | ⟨l, hl, h4⟩
          · have h5 : c ∈ [' ', '|', ' '] := h4
            rcases List.mem_cons.mp h5 with rfl | h6
            · decide
            rcases List.mem_cons.mp h6 with rfl | h7
            · decide
            rcases List.mem_cons.mp h7 with rfl | h8
            · decide
            · simp at h8
          · intro he; subst he; exact h l hl h4
        · rcases List.mem_cons.mp h3 with rfl | h4
          · decide
          · simp at h4
    simp [hne]

theorem serializeRow_cons (c : Str) (cs : List Str) (hne : cs ≠ []) :
    serializeRow (c :: cs) = ['|'] ++ padCell c ++ serializeRow cs := by
  cases cs with
  | nil => exact absurd rfl hne
  | cons y ys =>
    show str "| " ++ joinSep (str " | ") (c :: y :: ys) ++ str " |" = _
    rw [joinSep_cons_cons]
    show ['|', ' '] ++ (c ++ [' ', '|', ' '] ++ joinSep (str " | ") (y :: ys))
        ++ [' ', '|']
      = ['|'] ++ (' ' :: (c ++ [' ']))
        ++ (['|', ' '] ++ joinSep (str " | ") (y :: ys) ++ [' ', '|'])
    simp

theorem serializeRow_eq_joinSep (cs : List Str) (hne : cs ≠ []) :
    serializeRow cs = joinSep ['|'] ([[]] ++ cs.map padCell ++ [[]]) := by
  induction cs with
  | nil => exact absurd rfl hne
  | cons c rest ih =>
    cases rest with
    | nil =>
      show str "| " ++ joinSep (str " | ") [c] ++ str " |"
          = joinSep ['|'] [[], padCell c, []]
      rw [joinSep_cons_cons]
      show ['|', ' '] ++ c ++ [' ', '|']
          = [] ++ ['|'] ++ ((' ' :: (c ++ [' '])) ++ ['|'] ++ [])
      simp
    | cons y ys =>
      rw [serializeRow_cons c (y :: ys) (by simp), ih (by simp)]
      rw [show ([[]] ++ (c :: y :: ys).map padCell ++ [[]] : List (List Char))
          = [] :: padCell c :: ((y :: ys).map padCell ++ [[]]) from by simp]
      rw [show ([[]] ++ (y :: ys).map padCell ++ [[]] : List (List Char))
          = [] :: ((y :: ys).map padCell ++ [[]]) from by simp]
      rw [joinSep_cons_of_ne _ _ _ (by simp),
        joinSep_cons_of_ne _ _ _ (by simp),
        joinSep_cons_of_ne _ _ _ (by simp)]
      simp

theorem pySplit_serializeRow (cs : List Str) (hne : cs ≠ [])
    (hc : ∀ c ∈ cs, '|' ∉ c) :
    pySplit '|' (serializeRow cs) = [[]] ++ cs.map padCell ++ [[]] := by
  rw [serializeRow_eq_joinSep cs hne]
  refine pySplit_joinSep (by simp) ?_
  intro l hl
  have hpad : ∀ x ∈ cs, '|' ∉ padCell x := by
    intro x hx hmem
    rcases List.mem_cons.mp hmem with he | h2
    · exact absurd he (by decide)
    · rcases List.mem_append.mp h2 with h3 | h3
      · exact hc x hx h3
      · rcases List.mem_cons.mp h3 with he | h4
        · exact absurd he (by decide)
        · simp at h4
  rcases List.mem_append.mp hl with h1 | h1
  · rcases List.mem_append.mp h1 with h2 | h2
    · rcases List.mem_cons.mp h2 with rfl | h3
      · simp
      · simp at h3
    · obtain ⟨x, hx, rfl⟩ := List.mem_map.mp h2
      exact hpad x hx
  · rcases List.mem_cons.mp h1 with rfl | h2
    · simp
    · simp at h2

theorem cellsOf_serializeRow (cs : List Str) (hne : cs ≠ [])
    (hok : ∀ c ∈ cs, cellOk c) :
    cellsOf (serializeRow cs) = cs := by
  unfold cellsOf
  rw [pySplit_serializeRow cs hne (fun c hc => (hok c hc).2.1)]
  rw [show ([[]] ++ cs.map padCell ++ [[]] : List Str)
      = [] :: (cs.map padCell ++ [[]]) from by simp]
  rw [show (([] :: (cs.map padCell ++ [[]])).drop 1 : List Str)
      = cs.map padCell ++ [[]] from rfl]
  rw [List.dropLast_concat, List.map_map]
  have hcong : ∀ c ∈ cs, (pyStrip ∘ padCell) c = c := by
    intro c hc
    show pyStrip (padCell c) = c
    rw [show padCell c = ' ' :: (c ++ [' ']) from rfl, pyStrip_pad]
    exact (hok c hc).1
  calc cs.map (pyStrip ∘ padCell) = cs.map id := List.map_congr_left hcong
    _ = cs := List.map_id cs

theorem pySplit_serializeTable (t : Table)
    (hh : ∀ c ∈ t.headers, cellOk c)
    (hr : ∀ r ∈ t.rows, ∀ c ∈ r, cellOk c) :
    pySplit '\n' (serializeTable t)
      = serializeRow t.headers
        :: serializeRow (t.headers.map (fun _ => str "---"))
        :: t.rows.map serializeRow := by
  show pySplit '\n' (joinSep (str "\n")
    ([serializeRow t.headers, serializeRow (t.headers.map (fun _ => str "---"))]
      ++ t.rows.map serializeRow)) = _
  rw [show str "\n" = ['\n'] from rfl]
  refine (pySplit_joinSep (by simp) ?_).trans (by simp)
  intro l hl
  rcases List.mem_append.mp hl with h1 | h1
  · rcases List.mem_cons.mp h1 with rfl | h2
    · exact not_newline_mem_serializeRow (fun c hc => (hh c hc).2.2)
    rcases List.mem_cons.mp h2 with rfl | h3
    · refine not_newline_mem_serializeRow ?_
      intro c hc
      obtain ⟨x, hx, rfl⟩ := List.mem_map.mp hc
      decide
    · simp at h3
  · obtain ⟨r, hrr, rfl⟩ := List.mem_map.mp h1
    exact not_newline_mem_serializeRow (fun c hc => (hr r hrr c hc).2.2)

/-- C4: for every table produced by `extract_tables_as_dataframes`,
re-serializing it to pipe-delimited text (header row, separator row, data
rows) and extracting again yields a table whose headers and cells are
identical cell-for-cell (extracted cells are already trimmed, so the
round trip is exact). -/
theorem extract_serialize_roundtrip (content : Str) (t : Table)
    (ht : t ∈ extractTables content) :
    extractTables (serializeTable t) = [t] := by
  obtain ⟨hhpos, hrne, harity, hhok, hrok⟩ := extract_tableOk ht
  have hhne : t.headers ≠ [] := by
    intro he
    rw [he] at hhpos
    simp at hhpos
  have hsplit := pySplit_serializeTable t hhok hrok
  have hcand : ∀ l ∈ serializeRow t.headers
      :: serializeRow (t.headers.map (fun _ => str "---"))
      :: t.rows.map serializeRow, isCandidate l = true := by
    intro l hl
    rcases List.mem_cons.mp hl with rfl | h2
    · exact isCandidate_serializeRow (fun c hc => (hhok c hc).2.2)
    rcases List.mem_cons.mp h2 with rfl | h3
    · refine isCandidate_serializeRow ?_
      intro c hc
      obtain ⟨x, hx, rfl⟩ := List.mem_map.mp hc
      decide
    · obtain ⟨r, hrr, rfl⟩ := List.mem_map.mp h3
      exact isCandidate_serializeRow (fun c hc => (hrok r hrr c hc).2.2)
  have hrowscand : ∀ l ∈ t.rows.map serializeRow, isCandidate l = true := by
    intro l hl
    exact hcand l (List.mem_cons_of_mem _ (List.mem_cons_of_mem _ hl))
  have hcells : cellsOf (serializeRow t.headers) = t.headers :=
    cellsOf_serializeRow _ hhne hhok
  have hdata : parseDataRows t.headers.length (t.rows.map serializeRow) = t.rows := by
    rw [parseDataRows_eq_filter _ _ hrowscand, List.map_map]
    have hmap : t.rows.map (cellsOf ∘ serializeRow) = t.rows := by
      have hcong : ∀ r ∈ t.rows, (cellsOf ∘ serializeRow) r = r := by
        intro r hrr
        show cellsOf (serializeRow r) = r
        refine cellsOf_serializeRow r ?_ (hrok r hrr)
        intro he
        have := harity r hrr
        rw [he] at this
        simp at this
        omega
      calc t.rows.map (cellsOf ∘ serializeRow) = t.rows.map id :=
          List.map_congr_left hcong
        _ = t.rows := List.map_id _
    rw [hmap, List.filter_eq_self]
    intro r hrr
    simp [harity r hrr]
  have hfold := foldl_scanLine_candidates _ hcand [] [] false
  have hextract : extractTables (serializeTable t)
      = flushTable (serializeRow t.headers
        :: serializeRow (t.headers.map (fun _ => str "---"))
        :: t.rows.map serializeRow) := by
    show extractLines (pySplit '\n' (serializeTable t)) = _
    rw [hsplit]
    show (((serializeRow t.headers
        :: serializeRow (t.headers.map (fun _ => str "---"))
        :: t.rows.map serializeRow).foldl scanLine ⟨[], [], false⟩).tables
      ++ flushTable (((serializeRow t.headers
        :: serializeRow (t.headers.map (fun _ => str "---"))
        :: t.rows.map serializeRow).foldl scanLine ⟨[], [], false⟩).current)) = _
    rw [hfold]
    simp
  rw [hextract]
  show (if (serializeRow t.headers
      :: serializeRow (t.headers.map (fun _ => str "---"))
      :: t.rows.map serializeRow).isEmpty then []
    else match parseMarkdownTable (serializeRow t.headers
      :: serializeRow (t.headers.map (fun _ => str "---"))
      :: t.rows.map serializeRow) with
      | some df => if 0 < df.rows.length then [df] else []
      | none => []) = [t]
  simp only [List.isEmpty_cons, Bool.false_eq_true, if_false]
  show (match
      (if (parseDataRows (cellsOf (serializeRow t.headers)).length
          (t.rows.map serializeRow)).isEmpty then none
        else some ⟨cellsOf (serializeRow t.headers),
          parseDataRows (cellsOf (serializeRow t.headers)).length
            (t.rows.map serializeRow)⟩ : Option Table) with
    | some df => if 0 < df.rows.length then [df] else []
    | none => []) = [t]
  rw [hcells, hdata]
  have hempty : t.rows.isEmpty = false := by
    cases hrw : t.rows
    · exact absurd hrw hrne
    · rfl
  rw [hempty]
  have hpos : 0 < t.rows.length := by
    cases hrw : t.rows
    · exact absurd hrw hrne
    · simp
  simp only [Bool.false_eq_true, if_false, hpos, if_true]

/-- Witness for `extract_serialize_roundtrip` at a concrete extracted
one-by-one table. -/
theorem extract_serialize_roundtrip_witness :
    extractTables (serializeTable ⟨[str "a"], [[str "1"]]⟩)
      = [⟨[str "a"], [[str "1"]]⟩] :=
  extract_serialize_roundtrip (str "| a |\n| - |\n| 1 |")
    ⟨[str "a"], [[str "1"]]⟩ (by decide)

/-!
### Prompt renderer

Embedding of `render_prompt` from `backend/app/utils/prompt_loader.py`.
Variables are taken post-serialization: a non-string value is first
converted to a fenced JSON block, which is itself a string, so
quantifying over string values covers every input (the conversion does
not affect the strict checks, which mention only the placeholder).
-/

/-- The placeholder token for a variable key, Python `f"<{key}>"`. -/
def placeholderOf (key : Str) : Str := '<' :: (key ++ ['>'])

/-- The substitution loop of `render_prompt`: in strict mode, each
variable whose placeholder is absent from the text rendered so far raises
`PromptRenderError`; otherwise all occurrences are replaced. -/
def renderLoop (strict : Bool) : List (Str × Str) → Str → Except Str Str
  | [], rendered => .ok rendered
  | (key, value) :: rest, rendered =>
    if strict && !containsSub rendered (placeholderOf key) then
      .error (str "Placeholder " ++ placeholderOf key
        ++ str " not found in prompt template")
    else renderLoop strict rest (pyReplace rendered (placeholderOf key) value)

/-- Characters allowed inside an uppercase placeholder token:
the regex class `[A-Z0-9_]`. -/
def isTokenChar (c : Char) : Bool :=
  ('A' ≤ c && c ≤ 'Z') || ('0' ≤ c && c ≤ '9') || c = '_'

/-- After at least one token character, scan further token characters
until a closing `>`. -/
def tokenClose : Str → Bool
  | [] => false
  | c :: rest => c = '>' || (isTokenChar c && tokenClose rest)

/-- Whether a string starts with `[A-Z0-9_]+>` — the tail of a leftover
placeholder token after its opening `<`. -/
def tokenRun : Str → Bool
  | [] => false
  | c :: rest => isTokenChar c && tokenClose rest

/-- Whether `re.findall(r"<[A-Z0-9_]+>", s)` is nonempty. -/
def hasLeftover : Str → Bool
  | [] => false
  | c :: rest => (c = '<' && tokenRun rest) || hasLeftover rest

/-- Embedding of `render_prompt`: run the substitution loop, then in
strict mode fail when an uppercase-bracket token remains. -/
def renderPrompt (tpl : Str) (vars : List (Str × Str)) (strict : Bool) :
    Except Str Str :=
  match renderLoop strict vars tpl with
  | .error e => .error e
  | .ok rendered =>
    if strict && hasLeftover rendered then
      .error (str "Unreplaced placeholders found")
    else .ok rendered

/-- The pure substitution result, ignoring all strict checks: the fold of
`str.replace` over the variables in order. -/
def partialRender (tpl : Str) (vars : List (Str × Str)) : Str :=
  vars.foldl (fun r kv => pyReplace r (placeholderOf kv.1) kv.2) tpl

/-- Whether an `Except` result is an error. -/
def isErr (e : Except Str Str) : Bool :=
  match e with
  | .error _ => true
  | .ok _ => false

instance {α β : Type} [DecidableEq α] [DecidableEq β] :
    DecidableEq (Except α β) := fun a b =>
  match a, b with
  | .error x, .error y =>
    if h : x = y then isTrue (by rw [h]) else isFalse (by intro he; cases he; exact h rfl)
  | .ok x, .ok y =>
    if h : x = y then isTrue (by rw [h]) else isFalse (by intro he; cases he; exact h rfl)
  | .error _, .ok _ => isFalse (by intro he; cases he)
  | .ok _, .error _ => isFalse (by intro he; cases he)

example : renderPrompt (str "<A>!") [(str "A", str "x")] true = .ok (str "x!") := by
  decide

example : isErr (renderPrompt (str "no placeholder") [(str "A", str "x")] true)
    = true := by decide

example : isErr (renderPrompt (str "<A> <B>") [(str "A", str "x")] true) = true := by
  decide

example : renderPrompt (str "<A> <B>") [(str "A", str "x")] false
    = .ok (str "x <B>") := by decide

theorem renderLoop_false (vars : List (Str × Str)) :
    ∀ tpl, renderLoop false vars tpl = .ok (partialRender tpl vars) := by
  induction vars with
  | nil => intro tpl; rfl
  | cons kv rest ih =>
    intro tpl
    obtain ⟨k, v⟩ := kv
    show renderLoop false rest (pyReplace tpl (placeholderOf k) v) = _
    rw [ih]
    rfl

theorem renderLoop_ok {vars : List (Str × Str)} :
    ∀ {tpl r}, renderLoop true vars tpl = .ok r → r = partialRender tpl vars := by
  induction vars with
  | nil =>
    intro tpl r h
    simp only [renderLoop] at h
    cases h
    rfl
  | cons kv rest ih =>
    intro tpl r h
    obtain ⟨k, v⟩ := kv
    simp only [renderLoop] at h
    split at h
    · cases h
    · exact ih h

theorem renderLoop_err_iff (vars : List (Str × Str)) :
    ∀ tpl, isErr (renderLoop true vars tpl) = true ↔
      ∃ i, ∃ h : i < vars.length,
        containsSub (partialRender tpl (vars.take i))
          (placeholderOf (vars.get ⟨i, h⟩).1) = false := by
  induction vars with
  | nil =>
    intro tpl
    simp [renderLoop, isErr]
  | cons kv rest ih =>
    intro tpl
    obtain ⟨k, v⟩ := kv
    simp only [renderLoop]
    cases hc : containsSub tpl (placeholderOf k) with
    | false =>
      simp only [Bool.not_false, Bool.and_true, if_true, hc]
      constructor
      · intro _
        exact ⟨0, by simp, hc⟩
      · intro _
        rfl
    | true =>
      simp only [hc, Bool.not_true, Bool.and_false, Bool.false_eq_true, if_false]
      rw [ih (pyReplace tpl (placeholderOf k) v)]
      constructor
      · rintro ⟨i, h, hcc⟩
        refine ⟨i + 1, by simp only [List.length_cons]; omega, ?_⟩
        show containsSub
          (partialRender tpl (((k, v) :: rest).take (i + 1)))
          (placeholderOf (rest.get ⟨i, h⟩).1) = false
        show containsSub
          (partialRender (pyReplace tpl (placeholderOf k) v) (rest.take i))
          (placeholderOf (rest.get ⟨i, h⟩).1) = false
        exact hcc
      · rintro ⟨i, h, hcc⟩
        cases i with
        | zero =>
          exact absurd hcc (by simp [partialRender, hc])
        | succ j =>
          have hj : j < rest.length := by
            simp only [List.length_cons] at h
            omega
          refine ⟨j, hj, ?_⟩
          exact hcc

/-- C2 (amended): for every template and variable list, `render_prompt`
with strict=True fails if and only if either some supplied variable's
`<KEY>` placeholder is absent from the partially rendered text at the
moment that variable is processed (substitutions are applied in order, so
an earlier value can introduce or consume a later placeholder), or an
`<UPPER_CASE>`-shaped token remains after all substitutions; with
strict=False neither check is performed and the substitution result is
returned unconditionally. -/
theorem render_strict_failure_iff (tpl : Str) (vars : List (Str × Str)) :
    (isErr (renderPrompt tpl vars true) = true ↔
      (∃ i, ∃ h : i < vars.length,
        containsSub (partialRender tpl (vars.take i))
          (placeholderOf (vars.get ⟨i, h⟩).1) = false)
      ∨ hasLeftover (partialRender tpl vars) = true)
    ∧ renderPrompt tpl vars false = .ok (partialRender tpl vars) := by
  constructor
  · cases hloop : renderLoop true vars tpl with
    | error e =>
      have hres : renderPrompt tpl vars true = .error e := by
        unfold renderPrompt
        rw [hloop]
      rw [hres]
      have hiff := (renderLoop_err_iff vars tpl).mp (by rw [hloop]; rfl)
      exact ⟨fun _ => Or.inl hiff, fun _ => rfl⟩
    | ok r =>
      have hr : r = partialRender tpl vars := renderLoop_ok hloop
      subst hr
      have hnoabs : ¬ ∃ i, ∃ h : i < vars.length,
          containsSub (partialRender tpl (vars.take i))
            (placeholderOf (vars.get ⟨i, h⟩).1) = false := by
        intro hex
        have := (renderLoop_err_iff vars tpl).mpr hex
        rw [hloop] at this
        simp [isErr] at this
      cases hl : hasLeftover (partialRender tpl vars) with
      | true =>
        have hres : renderPrompt tpl vars true
            = .error (str "Unreplaced placeholders found") := by
          unfold renderPrompt
          rw [hloop]
          simp [hl]
        rw [hres]
        exact ⟨fun _ => Or.inr rfl, fun _ => rfl⟩
      | false =>
        have hres : renderPrompt tpl vars true = .ok (partialRender tpl vars) := by
          unfold renderPrompt
          rw [hloop]
          simp [hl]
        rw [hres]
        constructor
        · intro habs
          simp [isErr] at habs
        · intro hor
          rcases hor with h1 | h1
          · exact absurd h1 hnoabs
          · simp at h1
  · unfold renderPrompt
    rw [renderLoop_false]
    rfl

/-- C2 counterexample: the claim as stated says strict rendering fails
whenever a supplied variable's placeholder is absent from the template.
Here `<B>` is absent from the template `<A>`, yet strict rendering
succeeds, because the absence check runs against the partially rendered
text and the value substituted for `A` introduces `<B>`. -/
theorem render_strict_template_check_counterexample :
    isErr (renderPrompt (str "<A>") [(str "A", str "<B>"), (str "B", str "x")] true)
      = false
    ∧ containsSub (str "<A>") (placeholderOf (str "B")) = false
    ∧ renderPrompt (str "<A>") [(str "A", str "<B>"), (str "B", str "x")] true
      = .ok (str "x") := by decide

/-!
### Resource gate

Embedding of `_gpu_state_ok` from
`backend/app/services/extract2markdown/marker_runner.py`.  A hardware
unit is the `(index, temperature, memory total, memory used)` tuple
parsed from the query; the thresholds are the module constants
`GPU_TEMP_THRESHOLD_C` and `GPU_MEM_FREE_MB`, taken as parameters.
-/

/-- One reported hardware unit. -/
structure GpuUnit where
  index : Int
  temp : Int
  memTotal : Int
  memUsed : Int
deriving DecidableEq

/-- The per-unit checks inside the `_gpu_state_ok` loop. -/
def gpuUnitOk (tempThreshold memFreeMin : Int) (g : GpuUnit) : Bool :=
  if tempThreshold ≤ g.temp then false
  else if g.memTotal - g.memUsed < memFreeMin then false
  else true

/-- Embedding of `_gpu_state_ok`: an empty unit list is immediately ok;
otherwise every unit must pass both checks. -/
def gpuStateOk (tempThreshold memFreeMin : Int) (gpus : List GpuUnit) : Bool :=
  gpus.all (gpuUnitOk tempThreshold memFreeMin)

theorem gpuUnitOk_iff (a b : Int) (g : GpuUnit) :
    gpuUnitOk a b g = true ↔ g.temp < a ∧ b ≤ g.memTotal - g.memUsed := by
  unfold gpuUnitOk
  split
  · rename_i h
    constructor
    · intro hc; cases hc
    · intro hc; omega
  · split
    · rename_i h1 h2
      constructor
      · intro hc; cases hc
      · intro hc; omega
    · rename_i h1 h2
      constructor
      · intro _; omega
      · intro _; rfl

/-- C6: the readiness check `_gpu_state_ok` returns true if and only if
the hardware query reports zero units or, for every reported unit, the
temperature is strictly below the threshold and total minus used capacity
is at least the minimum free requirement; in particular with zero units
it is ready regardless of the thresholds. -/
theorem gpu_state_ok_iff (tempThreshold memFreeMin : Int) (gpus : List GpuUnit) :
    gpuStateOk tempThreshold memFreeMin gpus = true ↔
      (gpus = [] ∨ ∀ g ∈ gpus, g.temp < tempThreshold
        ∧ memFreeMin ≤ g.memTotal - g.memUsed) := by
  unfold gpuStateOk
  rw [List.all_eq_true]
  constructor
  · intro h
    exact Or.inr (fun g hg => (gpuUnitOk_iff _ _ g).mp (h g hg))
  · intro h g hg
    rcases h with rfl | h2
    · simp at hg
    · exact (gpuUnitOk_iff _ _ g).mpr (h2 g hg)

/-!
### External conversion runner

Embedding of `run_marker_for_chunk` from `marker_runner.py`.  The
subprocess invocation and the filesystem are abstracted into a
`MarkerRun` record of observations; the glob/stdout discovery heuristic
is abstracted into the single oracle field `discovered`, since the claim
concerns only which branch of the control flow is taken — the returned
`viaDiscovery` flag records whether the heuristic branch was entered.
-/

/-- Observations of one marker subprocess run. -/
structure MarkerRun where
  gpuReady : Bool
  exitCode : Int
  stderr : Str
  canonicalExists : Bool
  discovered : Option Str
deriving DecidableEq

/-- Result of `run_marker_for_chunk`: a raised `MarkerError`, or the
returned path together with whether the discovery heuristic produced it. -/
inductive MarkerOutcome
  | failure (msg : Str)
  | output (path : Str) (viaDiscovery : Bool)
deriving DecidableEq

/-- The canonical expected output path `output_dir / f"{chunk_stem}.md"`. -/
def canonicalOut (outputDir chunkStem : Str) : Str :=
  outputDir ++ ['/'] ++ chunkStem ++ str ".md"

/-- Embedding of `run_marker_for_chunk`: wait for the resource gate,
fail on nonzero exit, return the canonical path when it exists, and only
otherwise consult the discovery heuristic. -/
def runMarkerForChunk (outputDir chunkStem : Str) (run : MarkerRun) :
    MarkerOutcome :=
  if !run.gpuReady then
    .failure (str "Timeout waiting for GPU to become available")
  else if run.exitCode ≠ 0 then
    .failure (str "Marker failed: " ++ run.stderr)
  else if run.canonicalExists then
    .output (canonicalOut outputDir chunkStem) false
  else
    match run.discovered with
    | some p => .output p true
    | none => .failure (str "Expected markdown output not found")

/-- C7: for every chunk whose conversion exits successfully and whose
output exists at the canonical path `output_dir/chunk_stem.md`,
`run_marker_for_chunk` returns exactly that canonical path and never
enters the fallback discovery branch. -/
theorem marker_canonical_no_discovery (outputDir chunkStem : Str)
    (run : MarkerRun) (hgpu : run.gpuReady = true) (hexit : run.exitCode = 0)
    (hexists : run.canonicalExists = true) :
    runMarkerForChunk outputDir chunkStem run
      = .output (canonicalOut outputDir chunkStem) false := by
  unfold runMarkerForChunk
  rw [hgpu, hexit, hexists]
  simp

/-- Witness for `marker_canonical_no_discovery` at a concrete run whose
discovery oracle would have produced a different path. -/
theorem marker_canonical_no_discovery_witness :
    runMarkerForChunk (str "out") (str "doc_page_0001")
        ⟨true, 0, [], true, some (str "elsewhere.md")⟩
      = .output (canonicalOut (str "out") (str "doc_page_0001")) false :=
  marker_canonical_no_discovery _ _ _ rfl rfl rfl

/-!
### Dynamic code execution stage and orchestrator

Embedding of `run_cleaning_script` and `execute_cleaning_scripts` from
`execute_cleaning.py`, and of the stage-gating control flow of
`run_transform_pipeline` from `orchestrator.py`.  The behavior of the
dynamically loaded module is abstracted by `ScriptExec`; `csvReadOk`
models whether `pd.read_csv` succeeds; the LLM stages are abstracted by
their produced path lists.
-/

/-- The possible behaviors of a generated cleaning script artifact. -/
inductive ScriptExec
  | loadFails (msg : Str)
  | noEntryPoint
  | entryRaises (msg : Str)
  | returnsPair (table : Table) (log : Str)
  | returnsOnly (table : Table)
deriving DecidableEq

/-- One (script, csv) execution pair. -/
structure CleanJob where
  script : ScriptExec
  csvReadOk : Bool
  csvStem : Str
deriving DecidableEq

/-- Embedding of `run_cleaning_script`: every failure mode — csv read
error, module load error, missing `transform2tidy_table` entry point, or
an exception raised by the entry point — is absorbed and yields `none`;
only a successful invocation produces the cleaned csv path. -/
def runCleaningScript (job : CleanJob) : Option Str :=
  if !job.csvReadOk then none
  else
    match job.script with
    | .loadFails _ => none
    | .noEntryPoint => none
    | .entryRaises _ => none
    | .returnsPair _ _ => some (str "cleaned_" ++ job.csvStem ++ str ".csv")
    | .returnsOnly _ => some (str "cleaned_" ++ job.csvStem ++ str ".csv")

/-- Embedding of `execute_cleaning_scripts`: collect the successful
outputs. -/
def executeCleaningScripts (jobs : List CleanJob) : List Str :=
  jobs.foldl (fun acc job =>
    match runCleaningScript job with
    | some p => acc ++ [p]
    | none => acc) []

/-- The stage-attributed `ProcessingException`. -/
structure ProcessingExc where
  stage : Str
  detail : Str
deriving DecidableEq

/-- The artifact paths produced by the four stages preceding execution. -/
structure PipelineStages where
  profilePaths : List Str
  prompt1Paths : List Str
  prompt2Paths : List Str
  prompt3Paths : List Str

/-- Embedding of the control flow of `run_transform_pipeline`: each empty
stage result raises a stage-attributed `ProcessingException`, and an
empty cleaning result raises one attributed to `execute_cleaning`. -/
def runTransformPipeline (stages : PipelineStages) (job : CleanJob) :
    Except ProcessingExc Str :=
  if stages.profilePaths.isEmpty then
    .error ⟨str "profiling", str "No profile JSON produced"⟩
  else if stages.prompt1Paths.isEmpty then
    .error ⟨str "prompt1", str "Failed to generate prompt1 output"⟩
  else if stages.prompt2Paths.isEmpty then
    .error ⟨str "prompt2", str "Failed to generate remediation strategy"⟩
  else if stages.prompt3Paths.isEmpty then
    .error ⟨str "prompt3", str "Failed to generate cleaning code"⟩
  else
    match executeCleaningScripts [job] with
    | [] => .error ⟨str "execute_cleaning",
        str "Cleaning script did not produce output"⟩
    | p :: _ => .ok p

/-- C1: for every codegen artifact whose entry point is missing or raises
when invoked, `run_cleaning_script` returns `none` without propagating
any exception (its embedding is a total function into `Option`), and when
all earlier stages produced artifacts, `run_transform_pipeline` then
raises a `ProcessingException` attributed to stage `execute_cleaning`. -/
theorem cleaning_failure_absorbed (stages : PipelineStages) (job : CleanJob)
    (hscript : job.script = .noEntryPoint ∨ ∃ m, job.script = .entryRaises m)
    (h1 : stages.profilePaths ≠ []) (h2 : stages.prompt1Paths ≠ [])
    (h3 : stages.prompt2Paths ≠ []) (h4 : stages.prompt3Paths ≠ []) :
    runCleaningScript job = none
    ∧ runTransformPipeline stages job
      = .error ⟨str "execute_cleaning",
          str "Cleaning script did not produce output"⟩ := by
  have hrun : runCleaningScript job = none := by
    unfold runCleaningScript
    rcases hscript with h | ⟨m, h⟩ <;> rw [h] <;> cases job.csvReadOk <;> rfl
  refine ⟨hrun, ?_⟩
  have he1 : stages.profilePaths.isEmpty = false := by
    cases h : stages.profilePaths
    · exact absurd h h1
    · rfl
  have he2 : stages.prompt1Paths.isEmpty = false := by
    cases h : stages.prompt1Paths
    · exact absurd h h2
    · rfl
  have he3 : stages.prompt2Paths.isEmpty = false := by
    cases h : stages.prompt2Paths
    · exact absurd h h3
    · rfl
  have he4 : stages.prompt3Paths.isEmpty = false := by
    cases h : stages.prompt3Paths
    · exact absurd h h4
    · rfl
  have hexec : executeCleaningScripts [job] = [] := by
    unfold executeCleaningScripts
    simp [hrun]
  unfold runTransformPipeline
  rw [he1, he2, he3, he4, hexec]
  rfl

/-- Witness for `cleaning_failure_absorbed` at a concrete job whose
script raises at invocation time. -/
theorem cleaning_failure_absorbed_witness :
    runCleaningScript ⟨.entryRaises (str "KeyError"), true, str "table_1"⟩ = none
    ∧ runTransformPipeline ⟨[str "p"], [str "a1"], [str "s2"], [str "c3"]⟩
        ⟨.entryRaises (str "KeyError"), true, str "table_1"⟩
      = .error ⟨str "execute_cleaning",
          str "Cleaning script did not produce output"⟩ :=
  cleaning_failure_absorbed ⟨[str "p"], [str "a1"], [str "s2"], [str "c3"]⟩
    ⟨.entryRaises (str "KeyError"), true, str "table_1"⟩
    (Or.inr ⟨str "KeyError", rfl⟩) (by simp) (by simp) (by simp) (by simp)

/-!
### Artifact naming across stages

Embedding of the filename conventions: `save_tables_as_csv` writes
`table_{idx}.csv` (1-based), `process_table_file` writes
`{csv_stem}_profile.json`, and `process_tables_with_prompt1` writes
`prompt1_table{N}.json` where `N` is extracted from the profile stem by
`re.search(r"table(\d+)", ...)` with the positional index
`len(result_paths) + 1` as fallback.
-/

/-- Decimal digits of a natural number. -/
def natDigits (n : Nat) : Str := Nat.toDigits 10 n

/-- CSV stem written by `save_tables_as_csv` for the table with id `n`:
`table_{idx}`. -/
def tableCsvStem (n : Nat) : Str := str "table_" ++ natDigits n

/-- Profile stem written by `process_table_file`: `{csv_stem}_profile`. -/
def profileStemOf (csvStem : Str) : Str := csvStem ++ str "_profile"

/-- Numeric value of a digit run. -/
def digitsToNat (ds : Str) : Nat :=
  ds.foldl (fun acc c => acc * 10 + (c.toNat - '0'.toNat)) 0

/-- Embedding of `re.search(r"table(\d+)", s)`: the leftmost occurrence
of `table` immediately followed by at least one digit, with the maximal
digit run as the captured number. -/
def searchTableNum : Str → Option Nat
  | [] => none
  | c :: rest =>
    if (str "table").isPrefixOf (c :: rest) then
      let ds := ((c :: rest).drop 5).takeWhile (fun d => '0' ≤ d && d ≤ '9')
      if ds.isEmpty then searchTableNum rest
      else some (digitsToNat ds)
    else searchTableNum rest

/-- The analysis artifact filename chosen by `process_tables_with_prompt1`
for one profile stem: the regex-extracted number when present, otherwise
the positional fallback. -/
def prompt1FileName (profileStem : Str) (positional : Nat) : Str :=
  str "prompt1_table"
    ++ natDigits ((searchTableNum profileStem).getD positional)
    ++ str ".json"

/-- The filenames produced by the `process_tables_with_prompt1` loop for
a list of profile stems, threading the positional fallback
`len(result_paths) + 1`. -/
def prompt1FileNames (profileStems : List Str) : List Str :=
  profileStems.foldl (fun acc stem =>
    acc ++ [prompt1FileName stem (acc.length + 1)]) []

example : searchTableNum (str "profile_table11") = some 11 := by decide

example : searchTableNum (str "table11_profile") = some 11 := by decide

/-- C5: the claim states that the analysis stage persists the artifact
for the table saved as `table_<n>.csv` at `prompt1_table<n>.json`, the
number in the artifact name equaling the table id `n`.  In the code, the
csv for table id 3 is `table_3.csv`, its profile stem is
`table_3_profile`, the regex `table(\d+)` fails to match it because an
underscore separates `table` from the digits, and the positional fallback
numbers the artifact `prompt1_table1.json` instead of
`prompt1_table3.json` — contradicting the code's own comment that the
extraction handles `table11_profile.json`-style names. -/
theorem prompt1_artifact_misnumbered :
    profileStemOf (tableCsvStem 3) = str "table_3_profile"
    ∧ searchTableNum (profileStemOf (tableCsvStem 3)) = none
    ∧ prompt1FileNames [profileStemOf (tableCsvStem 3)]
        = [str "prompt1_table1.json"]
    ∧ prompt1FileNames [profileStemOf (tableCsvStem 3)]
        ≠ [str "prompt1_table3.json"] := by decide

/-!
### PDF converter

Embedding of `pdf_converter.py`: `_combine_markdown_content`,
`_cleanup_temp_images` and `convert_pdf_and_process`.  Image files are
identified by their stem (the heading extraction uses `image_path.stem`);
the PyMuPDF rendering, the per-page marker runs and the markdown save are
abstracted into a `PdfEnv` of per-step outcomes, with `unexpected`
standing for a non-MarkerError exception raised inside the try body.
-/

/-- Zero-pad a number to four digits, Python `f"{n:04d}"`. -/
def pad4 (n : Nat) : Str :=
  List.replicate (4 - (natDigits n).length) '0' ++ natDigits n

/-- The stem of the image produced for one page:
`f"{pdf_path.stem}_page_{page_num + 1:04d}"`. -/
def imageStemOf (pdfStem : Str) (pageNum : Nat) : Str :=
  pdfStem ++ str "_page_" ++ pad4 pageNum

/-- Fuel-driven worker for `pySplitSub`; each step consumes at least one
character of the subject, so the subject length bounds the recursion. -/
def splitSubFuel (sep : Str) : Nat → Str → List Str
  | 0, s => [s]
  | fuel + 1, s =>
    match s with
    | [] => [[]]
    | c :: rest =>
      if sep.isPrefixOf (c :: rest) then
        [] :: splitSubFuel sep fuel ((c :: rest).drop sep.length)
      else
        match splitSubFuel sep fuel rest with
        | [] => [[c]]
        | piece :: pieces => (c :: piece) :: pieces

/-- Python `s.split(sep)` for a nonempty multi-character separator. -/
def pySplitSub (sep s : Str) : List Str :=
  if sep.isEmpty then [s] else splitSubFuel sep (s.length + 1) s

/-- The page heading token of `_combine_markdown_content`:
`image_path.stem.split("_page_")[-1]`. -/
def pageNumToken (imageStem : Str) : Str :=
  (pySplitSub (str "_page_") imageStem).getLastD []

example : pageNumToken (str "document_page_0001") = str "0001" := by decide

/-- Embedding of `_combine_markdown_content`: title line, page-count
line, rule, then one `## Page <token>` section per processed page. -/
def combineMarkdown (contents : List (Str × Str)) (originalFilename : Str) :
    Str :=
  str "# Document: " ++ originalFilename ++ str "\n\n"
    ++ str "*Converted and processed " ++ natDigits contents.length
    ++ str " pages*\n\n" ++ str "---\n\n"
    ++ (contents.map (fun pc =>
        str "## Page " ++ pageNumToken pc.1 ++ str "\n\n" ++ pc.2
          ++ str "\n\n---\n\n")).flatten

/-- The placeholder substituted for a page whose conversion failed. -/
def failurePlaceholder (msg : Str) : Str :=
  str "*Failed to extract content from this page: " ++ msg ++ str "*\n"

/-- Environment of one `convert_pdf_and_process` run. -/
structure PdfEnv where
  pageCount : Except Str Nat
  pageResult : Nat → Except Str Str
  saveOk : Bool
  unexpected : Option Str

/-- The intermediate images produced by the conversion step (empty when
the step raised, matching the `image_paths = []` initialization). -/
def pdfImages (pdfStem : Str) (env : PdfEnv) : List Str :=
  match env.pageCount with
  | .ok n => (List.range n).map (fun i => imageStemOf pdfStem (i + 1))
  | .error _ => []

/-- The per-page contents collected by the processing loop: the marker
output on success, the marked placeholder on a per-page `MarkerError`. -/
def pdfContents (pdfStem : Str) (n : Nat) (env : PdfEnv) :
    List (Str × Str) :=
  (List.range n).map (fun i =>
    (imageStemOf pdfStem (i + 1),
      match env.pageResult (i + 1) with
      | .ok content => content
      | .error msg => failurePlaceholder msg))

/-- A Python exception as seen by the two handlers of
`convert_pdf_and_process`. -/
inductive PyExc
  | markerError (msg : Str)
  | otherError (msg : Str)
deriving DecidableEq

/-- The try body of `convert_pdf_and_process`: convert to images, fail on
zero images, process every page (per-page failures absorbed into
placeholders), combine and save. -/
def pdfTryBody (pdfStem : Str) (env : PdfEnv) : Except PyExc (Str × Nat) :=
  match env.pageCount with
  | .error m => .error (.markerError m)
  | .ok n =>
    if n = 0 then .error (.markerError (str "No images extracted from PDF"))
    else
      match env.unexpected with
      | some m => .error (.otherError m)
      | none =>
        let contents := pdfContents pdfStem n env
        let combined := combineMarkdown contents (pdfStem ++ str ".pdf")
        if env.saveOk then .ok (combined, contents.length)
        else .error (.markerError (str "Failed to save combined markdown"))

/-- Embedding of `_cleanup_temp_images`: retain everything when
`keep_images` is requested, otherwise delete all. -/
def cleanupTempImages (images : List Str) (keepImages : Bool) : List Str :=
  if keepImages then images else []

/-- Embedding of `convert_pdf_and_process` with its two exception
handlers: on success and on `MarkerError` the cleanup receives the
requested `keep_images` flag; on any other exception it receives
`keep_images=False` and the error is wrapped in a `MarkerError`.  The
second component is the set of intermediate images left on disk. -/
def convertPdfAndProcess (pdfStem : Str) (keepImages : Bool) (env : PdfEnv) :
    Except Str (Str × Nat) × List Str :=
  let images := pdfImages pdfStem env
  match pdfTryBody pdfStem env with
  | .ok res => (.ok res, cleanupTempImages images keepImages)
  | .error (.markerError m) => (.error m, cleanupTempImages images keepImages)
  | .error (.otherError m) =>
    (.error (str "PDF conversion workflow failed: " ++ m),
      cleanupTempImages images false)

/-- A three-page conversion environment where page 2 fails. -/
def envThreePages : PdfEnv :=
  ⟨.ok 3,
    fun i => if i = 1 then .ok (str "FIRST")
      else if i = 2 then .error (str "boom")
      else .ok (str "THIRD"),
    true, none⟩

/-- The combined markdown produced for `envThreePages`. -/
def combinedThreePages : Str :=
  combineMarkdown (pdfContents (str "doc") 3 envThreePages) (str "doc.pdf")

/-- C8: for a 3-page PDF whose page 2 conversion fails,
`convert_pdf_and_process` reports a page count of 3 and a combined
document containing the contents of pages 1 and 3 and the marked failure
placeholder for page 2 — but the section headings read `## Page 0001`,
`## Page 0002`, `## Page 0003` (the zero-padded chunk suffix produced by
splitting the stem on `_page_`), not `## Page 1` ... `## Page 3` as the
claim and the code's own comment (`"document_page_0001.png" -> "1"`)
state. -/
theorem pdf_three_pages_one_failure :
    (convertPdfAndProcess (str "doc") false envThreePages).1
      = .ok (combinedThreePages, 3)
    ∧ containsSub combinedThreePages (str "## Page 0001\n\nFIRST") = true
    ∧ containsSub combinedThreePages
        (str "## Page 0002\n\n" ++ failurePlaceholder (str "boom")) = true
    ∧ containsSub combinedThreePages (str "## Page 0003\n\nTHIRD") = true
    ∧ containsSub combinedThreePages (str "*Converted and processed 3 pages*")
        = true
    ∧ containsSub combinedThreePages (str "## Page 1") = false
    ∧ containsSub combinedThreePages (str "## Page 2") = false
    ∧ containsSub combinedThreePages (str "## Page 3") = false := by decide

/-- C10: when the try body of `convert_pdf_and_process` fails with a
non-MarkerError exception, the cleanup deletes the intermediate chunk
images even when `keep_images=True` was requested; on the `MarkerError`
failure path and on the success path the retention request is honored. -/
theorem pdf_cleanup_keep_images (pdfStem : Str) (env : PdfEnv) (keep : Bool) :
    (∀ r, pdfTryBody pdfStem env = .ok r →
      (convertPdfAndProcess pdfStem keep env).2
        = (if keep then pdfImages pdfStem env else []))
    ∧ (∀ m, pdfTryBody pdfStem env = .error (.markerError m) →
      (convertPdfAndProcess pdfStem keep env).2
        = (if keep then pdfImages pdfStem env else []))
    ∧ (∀ m, pdfTryBody pdfStem env = .error (.otherError m) →
      (convertPdfAndProcess pdfStem keep env).2 = []) := by
  refine ⟨fun r hr => ?_, fun m hm => ?_, fun m hm => ?_⟩
  · unfold convertPdfAndProcess
    rw [hr]
    rfl
  · unfold convertPdfAndProcess
    rw [hm]
    rfl
  · unfold convertPdfAndProcess
    rw [hm]
    rfl

/-- An environment whose try body raises a non-MarkerError exception
after two page images were produced. -/
def envUnexpected : PdfEnv :=
  ⟨.ok 2, fun _ => .ok (str "x"), true, some (str "disk full")⟩

/-- Witness for `pdf_cleanup_keep_images`: with `keep_images=True`, the
unexpected-exception path deletes both images, while the success path
preserves them. -/
theorem pdf_cleanup_keep_images_witness :
    (convertPdfAndProcess (str "doc") true envUnexpected).2 = []
    ∧ (convertPdfAndProcess (str "doc") true envThreePages).2
        = pdfImages (str "doc") envThreePages :=
  ⟨(pdf_cleanup_keep_images (str "doc") envUnexpected true).2.2
      (str "disk full") (by decide),
   ((pdf_cleanup_keep_images (str "doc") envThreePages true).1
      (combinedThreePages, 3) (by decide)).trans (by decide)⟩

end PdfTidy
